import Mathlib

/-!
Verification of the FoilPriceTracker core (price_tracker.py) against its
natural-language specification.

Shallow embedding conventions:
* Python floats that hold parsed decimal prices are modelled as rationals.
  Every price in the program is produced by extract_price_number, whose
  results are exact decimals, so the rational model is faithful for all
  computations the claims mention.
* The raw-HTML scanning layer that is driven by fixed regular expressions
  (the script-tag finder of jsonld_prices, the meta-tag finder of og_price,
  and CSS selection) is embedded at the granularity of its outputs: a Page
  carries the raw text, the list of ld+json block contents, the content
  attribute of the matched Open-Graph or twitter meta tag, and the raw string
  of the first selector-matched node.  The inner key/value scan of
  jsonld_prices, numeric parsing, and all decision logic are embedded
  directly from the source.
* Config-supplied regular expressions (price_regex) are arbitrary user data,
  so they are modelled as an abstract matcher returning the first captured
  group on success.
-/

/-- Characters kept by the price cleaner: digits, dot and comma.  Mirrors
re.sub removing every character outside this class. -/
def keepCh (c : Char) : Bool := c.isDigit || c == '.' || c == ','

/-- Index of the last occurrence of a character, as an integer, -1 when the
character is absent.  Mirrors Python str.rfind. -/
def rfindI (s : List Char) (c : Char) : Int :=
  match s.reverse.findIdx? (fun d => d == c) with
  | none => -1
  | some j => (s.length : Int) - 1 - (j : Int)

/-- Leftmost match of the pattern digits, optionally followed by a dot and
more digits; returns integer part and fraction part.  Mirrors the final
re.search in extract_price_number. -/
def firstNumToken : List Char → Option (List Char × List Char)
  | [] => none
  | c :: rest =>
    if c.isDigit then
      let ip := (c :: rest).takeWhile Char.isDigit
      let r1 := (c :: rest).dropWhile Char.isDigit
      match r1 with
      | '.' :: r2 =>
        let fp := r2.takeWhile Char.isDigit
        if fp.isEmpty then some (ip, []) else some (ip, fp)
      | _ => some (ip, [])
    else firstNumToken rest

/-- Numeric value of a digit string. -/
def digitsVal (l : List Char) : Nat := l.foldl (fun a c => 10 * a + (c.toNat - 48)) 0

/-- Rational value of an integer part and fraction part. -/
def tokenVal (ip fp : List Char) : ℚ :=
  (digitsVal ip : ℚ) + (digitsVal fp : ℚ) / ((10 : ℚ) ^ fp.length)

/-- Separator normalization from the source: when the last comma occurs
after the last dot, all dots are removed and every comma becomes a dot
(replace then replace); otherwise all commas are removed. -/
def sepNormalize (cleaned : List Char) : List Char :=
  if rfindI cleaned ',' > rfindI cleaned '.' then
    (cleaned.filter (fun c => c != '.')).map (fun c => if c == ',' then '.' else c)
  else
    cleaned.filter (fun c => c != ',')

/-- Embedding of extract_price_number from price_tracker.py. -/
def extract_price_number (text : String) : Option ℚ :=
  if text.data.isEmpty then none
  else
    let cleaned := text.data.filter keepCh
    if cleaned.isEmpty then none
    else
      match firstNumToken (sepNormalize cleaned) with
      | none => none
      | some (ip, fp) => some (tokenVal ip fp)

/-- Helper for the claim-literal normalization: replace the first comma of
the list by a dot, dropping all later commas. -/
def firstCommaToDot : List Char → List Char
  | [] => []
  | c :: r => if c == ',' then '.' :: r.filter (fun d => d != ',') else c :: firstCommaToDot r

/-- Claim-literal normalization: in the comma branch all dots are removed and
only the LAST comma becomes the decimal dot, all other commas removed. -/
def sepNormalizeClaim (cleaned : List Char) : List Char :=
  if rfindI cleaned ',' > rfindI cleaned '.' then
    ((firstCommaToDot (cleaned.filter (fun c => c != '.')).reverse)).reverse
  else
    cleaned.filter (fun c => c != ',')

/-- Price parser read literally from the words of claim C2: the separator
occurring last is treated as THE decimal point (so, in the comma branch,
only that comma becomes a dot). -/
def extract_price_number_claim (text : String) : Option ℚ :=
  if text.data.isEmpty then none
  else
    let cleaned := text.data.filter keepCh
    if cleaned.isEmpty then none
    else
      match firstNumToken (sepNormalizeClaim cleaned) with
      | none => none
      | some (ip, fp) => some (tokenVal ip fp)

/-- Comma-branch normalization written as one structural pass: dots dropped,
every comma turned into a dot. -/
def commaBranchNorm : List Char → List Char
  | [] => []
  | c :: r =>
    if c == '.' then commaBranchNorm r
    else if c == ',' then '.' :: commaBranchNorm r
    else c :: commaBranchNorm r

/-- Dot-branch normalization written as one structural pass: commas dropped. -/
def dotBranchNorm : List Char → List Char
  | [] => []
  | c :: r => if c == ',' then dotBranchNorm r else c :: dotBranchNorm r

/-- Amended description of the separator normalization: when the last comma
occurs after the last dot, all dots are removed and EVERY comma becomes a
dot; otherwise all commas are removed. -/
def sepNormalizeAmended (cleaned : List Char) : List Char :=
  if rfindI cleaned ',' > rfindI cleaned '.' then commaBranchNorm cleaned
  else dotBranchNorm cleaned

/-- Price parser following the amended claim wording. -/
def extract_price_number_amended (text : String) : Option ℚ :=
  if text.data.isEmpty then none
  else
    let cleaned := text.data.filter keepCh
    if cleaned.isEmpty then none
    else
      match firstNumToken (sepNormalizeAmended cleaned) with
      | none => none
      | some (ip, fp) => some (tokenVal ip fp)

/-- Embedding of pct_drop from price_tracker.py. -/
def pct_drop (old new : ℚ) : ℚ :=
  if old ≤ 0 then 0 else ((old - new) / old) * 100

lemma commaBranchNorm_eq (l : List Char) :
    commaBranchNorm l =
      (l.filter (fun c => c != '.')).map (fun c => if c == ',' then '.' else c) := by
  induction l with
  | nil => rfl
  | cons c r ih =>
    by_cases h1 : c == '.'
    · have : c = '.' := by exact beq_iff_eq.mp h1
      subst this
      simp [commaBranchNorm, ih]
    · by_cases h2 : c == ','
      · have : c = ',' := by exact beq_iff_eq.mp h2
        subst this
        simp [commaBranchNorm, ih]
      · have hd : c ≠ '.' := by simpa using h1
        have hc : c ≠ ',' := by simpa using h2
        simp [commaBranchNorm, List.filter_cons, hd, hc, h1, h2, ih]

lemma dotBranchNorm_eq (l : List Char) :
    dotBranchNorm l = l.filter (fun c => c != ',') := by
  induction l with
  | nil => rfl
  | cons c r ih =>
    by_cases h : c == ','
    · have : c = ',' := beq_iff_eq.mp h
      subst this
      simp [dotBranchNorm, ih]
    · have hc : c ≠ ',' := by simpa using h
      simp [dotBranchNorm, List.filter_cons, hc, h, ih]

lemma sepNormalizeAmended_eq (l : List Char) : sepNormalizeAmended l = sepNormalize l := by
  unfold sepNormalizeAmended sepNormalize
  by_cases h : rfindI l ',' > rfindI l '.'
  · rw [if_pos h, if_pos h, commaBranchNorm_eq]
  · rw [if_neg h, if_neg h, dotBranchNorm_eq]

/-- Evaluation helper: the rational value of a token, given the evaluated
digit values and fraction length. -/
lemma tokenVal_eval (ip fp : List Char) (a b n : Nat)
    (ha : digitsVal ip = a) (hb : digitsVal fp = b) (hn : fp.length = n) :
    tokenVal ip fp = (a : ℚ) + (b : ℚ) / (10 : ℚ) ^ n := by
  rw [tokenVal, ha, hb, hn]

/-- C2, counterexample: the claim states that the separator occurring last in
the cleaned string is treated as the decimal point, and in particular that
parse of the string dollar-1,299 equals 1299.0.  The code parses it to 1.299:
in the comma branch EVERY comma becomes a dot, and the first resulting dot
ends up as the decimal point of the extracted token; even the claim-literal
procedure yields 1.299 on this input, contradicting the claimed example
value 1299.0.  On a multi-comma input the code result also differs from the
claim-literal procedure (only the last comma becoming the decimal point). -/
theorem c2_counterexample :
    extract_price_number "$1,299" = some (1299 / 1000 : ℚ) ∧
    ((1299 / 1000 : ℚ) ≠ (1299 : ℚ)) ∧
    extract_price_number_claim "$1,299" = some (1299 / 1000 : ℚ) ∧
    extract_price_number "1,234,567" = some (617 / 500 : ℚ) ∧
    extract_price_number_claim "1,234,567" = some (1234567 / 1000 : ℚ) ∧
    ((617 / 500 : ℚ) ≠ (1234567 / 1000 : ℚ)) := by
  refine ⟨?_, by norm_num, ?_, ?_, ?_, by norm_num⟩
  · have he : extract_price_number "$1,299" = some (tokenVal ['1'] ['2', '9', '9']) := rfl
    rw [he, tokenVal_eval ['1'] ['2', '9', '9'] 1 299 3 rfl rfl rfl]
    norm_num
  · have he : extract_price_number_claim "$1,299" = some (tokenVal ['1'] ['2', '9', '9']) := rfl
    rw [he, tokenVal_eval ['1'] ['2', '9', '9'] 1 299 3 rfl rfl rfl]
    norm_num
  · have he : extract_price_number "1,234,567" = some (tokenVal ['1'] ['2', '3', '4']) := rfl
    rw [he, tokenVal_eval ['1'] ['2', '3', '4'] 1 234 3 rfl rfl rfl]
    norm_num
  · have he : extract_price_number_claim "1,234,567" =
        some (tokenVal ['1', '2', '3', '4'] ['5', '6', '7']) := rfl
    rw [he, tokenVal_eval ['1', '2', '3', '4'] ['5', '6', '7'] 1234 567 3 rfl rfl rfl]
    norm_num

/-- C2, amended: the parser strips every character that is not a digit, dot
or comma, returns none on an empty result, and, when the separator occurring
last in the cleaned string is a comma, removes all dots and turns EVERY comma
into a dot (so the first comma of the cleaned string becomes the decimal
point of the extracted first token); otherwise it removes all commas.  It
then extracts the first contiguous integer-dot-fraction token.  In
particular parse of 2,747.00 is 2747, parse of 2.747,00 is 2747, parse of
dollar-1,299 is 1.299, parse of the empty string is none and parse of abc is
none. -/
theorem c2_theorem :
    (∀ t : String, extract_price_number t = extract_price_number_amended t) ∧
    extract_price_number "2,747.00" = some (2747 : ℚ) ∧
    extract_price_number "2.747,00" = some (2747 : ℚ) ∧
    extract_price_number "$1,299" = some (1299 / 1000 : ℚ) ∧
    extract_price_number "" = none ∧
    extract_price_number "abc" = none := by
  refine ⟨?_, ?_, ?_, ?_, rfl, rfl⟩
  · intro t
    unfold extract_price_number extract_price_number_amended
    simp only [sepNormalizeAmended_eq]
  · have he : extract_price_number "2,747.00" =
        some (tokenVal ['2', '7', '4', '7'] ['0', '0']) := rfl
    rw [he, tokenVal_eval ['2', '7', '4', '7'] ['0', '0'] 2747 0 2 rfl rfl rfl]
    norm_num
  · have he : extract_price_number "2.747,00" =
        some (tokenVal ['2', '7', '4', '7'] ['0', '0']) := rfl
    rw [he, tokenVal_eval ['2', '7', '4', '7'] ['0', '0'] 2747 0 2 rfl rfl rfl]
    norm_num
  · have he : extract_price_number "$1,299" = some (tokenVal ['1'] ['2', '9', '9']) := rfl
    rw [he, tokenVal_eval ['1'] ['2', '9', '9'] 1 299 3 rfl rfl rfl]
    norm_num

/-- C3: pct_drop old new equals ((old - new) / old) * 100 when old is
positive and equals 0 otherwise; a new price above old yields a negative
percentage; the three listed example values hold. -/
theorem c3_theorem :
    (∀ old new : ℚ, pct_drop old new = if 0 < old then ((old - new) / old) * 100 else 0) ∧
    pct_drop 100 90 = 10 ∧ pct_drop 100 110 = -10 ∧ pct_drop 0 50 = 0 := by
  refine ⟨?_, by norm_num [pct_drop], by norm_num [pct_drop], by norm_num [pct_drop]⟩
  intro old new
  unfold pct_drop
  rcases le_or_lt old 0 with h | h
  · rw [if_pos h, if_neg (not_lt.mpr h)]
  · rw [if_neg (not_le.mpr h), if_pos h]

/-- ASCII lowering of a string; models str.lower on the ASCII titles and
keywords that appear in the configuration. -/
def lowerStr (s : String) : String := String.mk (s.data.map Char.toLower)

/-- needle occurs as a contiguous substring of hay; models the Python
in-operator on strings. -/
def hasSub : List Char → List Char → Bool
  | [], needle => needle.isEmpty
  | c :: t, needle => List.isPrefixOf needle (c :: t) || hasSub t needle

/-- needle is a substring of hay, on strings. -/
def strIn (needle hay : String) : Bool := hasSub hay.data needle.data

/-- Embedding of text_ok from price_tracker.py: a title passes when, the
include list being nonempty, every include keyword occurs (lowercased) in
the lowercased title, and, the exclude list being nonempty, no exclude
keyword occurs. -/
def text_ok (s : String) (includes excludes : List String) : Bool :=
  let S := lowerStr s
  if !includes.isEmpty && !(includes.all (fun k => strIn (lowerStr k) S)) then false
  else if !excludes.isEmpty && (excludes.any (fun k => strIn (lowerStr k) S)) then false
  else true

lemma text_ok_eq (s : String) (inc exc : List String) :
    text_ok s inc exc =
      ((inc.all (fun k => strIn (lowerStr k) (lowerStr s))) &&
        !(exc.any (fun k => strIn (lowerStr k) (lowerStr s)))) := by
  unfold text_ok
  cases hA : inc.all (fun k => strIn (lowerStr k) (lowerStr s)) <;>
    cases hE : exc.any (fun k => strIn (lowerStr k) (lowerStr s)) <;>
      cases inc <;> cases exc <;> simp_all

/-- Python truthiness of an optional number: present and nonzero. -/
def truthy : Option ℚ → Bool
  | none => false
  | some v => v != 0

/-- Reason tag attached to a used-market match; the f-string formatting of
the source is abstracted into the carried numbers. -/
inductive Reason where
  | belowCeiling : ℚ → Reason
  | belowRef : ℚ → Reason
deriving DecidableEq

/-- A used-market candidate as produced by extract_items: title, url and
optional parsed price. -/
structure Candidate where
  title : String
  url : String
  price : Option ℚ
deriving DecidableEq

/-- A used-market match record, as appended to results in
search_used_market. -/
structure MatchRec where
  title : String
  url : String
  price : Option ℚ
  reason : Reason
deriving DecidableEq

/-- The per-search configuration fields consumed by search_used_market. -/
structure SearchCfg where
  include_keywords : List String
  exclude_keywords : List String
  alert_below : Option ℚ
  alert_percent_below_msrp : Option ℚ

/-- The absolute-ceiling condition of the source: alert_below truthy, price
known, price at most the ceiling. -/
def ceilFire (ab : Option ℚ) (p : ℚ) : Bool :=
  truthy ab && decide (p ≤ ab.getD 0)

/-- The percent-below-reference condition of the source: msrp and percent
threshold truthy, price known, drop at least the threshold. -/
def refFire (msrp apct : Option ℚ) (p : ℚ) : Bool :=
  truthy msrp && truthy apct && decide (pct_drop (msrp.getD 0) p ≥ apct.getD 0)

/-- The trigger block of search_used_market: the if/elif over the ceiling
and percent rules, given a candidate price. -/
def candidateTrigger (ab msrp apct : Option ℚ) (price : Option ℚ) : Option Reason :=
  match price with
  | none => none
  | some p =>
    if ceilFire ab p then some (Reason.belowCeiling (ab.getD 0))
    else if refFire msrp apct p then some (Reason.belowRef (pct_drop (msrp.getD 0) p))
    else none

/-- One loop iteration of search_used_market for a single candidate:
keyword filter, then dedup filter, then the economic rules. -/
def processCandidate (scfg : SearchCfg) (seen : List String) (msrp : Option ℚ)
    (c : Candidate) : Option MatchRec :=
  if !(text_ok c.title scfg.include_keywords scfg.exclude_keywords) then none
  else if c.url != "" && seen.contains c.url then none
  else
    match candidateTrigger scfg.alert_below msrp scfg.alert_percent_below_msrp c.price with
    | some r => some ⟨c.title, c.url, c.price, r⟩
    | none => none

/-- Embedding of search_used_market from price_tracker.py, over the
candidate list the Listing Extractor produced for the fetched page. -/
def search_used_market (scfg : SearchCfg) (seen : List String) (msrp : Option ℚ)
    (candidates : List Candidate) : List MatchRec :=
  candidates.filterMap (processCandidate scfg seen msrp)

/-- seen.add of the source: the seen set is modelled as a duplicate-free
list. -/
def addSeen (s : List String) (u : String) : List String :=
  if s.contains u then s else s ++ [u]

/-- Folding the urls of the alerted matches into the seen set, as the match
loop in main does (urls equal to the empty string are skipped by the
truthiness guard). -/
def foldSeen (ms : List MatchRec) (s : List String) : List String :=
  ms.foldl (fun acc m => if m.url != "" then addSeen acc m.url else acc) s

/-- String order used by Python sorted on the seen list. -/
def strLe (a b : String) : Bool := decide (a ≤ b)

/-- Insertion into a sorted list of strings. -/
def insStr (x : String) : List String → List String
  | [] => [x]
  | y :: t => if strLe x y then x :: y :: t else y :: insStr x t

/-- Sorting of the seen list, modelling Python sorted. -/
def sortStrings (l : List String) : List String := l.foldr insStr []

/-- The last n entries of a list, modelling the Python slice from -n. -/
def takeLastStr (n : Nat) (l : List String) : List String := l.drop (l.length - n)

/-- One run of a tracked search over fixed input: the matches of
search_used_market, and the persisted seen set (alerted urls folded in,
then sorted and capped at 2000 as in main). -/
def runSearchStep (scfg : SearchCfg) (msrp : Option ℚ) (candidates : List Candidate)
    (seen : List String) : List MatchRec × List String :=
  let ms := search_used_market scfg seen msrp candidates
  (ms, takeLastStr 2000 (sortStrings (foldSeen ms seen)))

/-- The seen set after n repeated runs with unchanged input. -/
def iterateSeen (scfg : SearchCfg) (msrp : Option ℚ) (candidates : List Candidate) :
    Nat → List String → List String
  | 0, s => s
  | n + 1, s => iterateSeen scfg msrp candidates n (runSearchStep scfg msrp candidates s).2

/-- The apostrophe character, written through its code point. -/
def sQuoteCh : Char := Char.ofNat 39

/-- The sample title with the excluded volume keyword. -/
def c6_title_listed : String := "6" ++ String.mk [sQuoteCh] ++ "7 surfboard 90L"

/-- The sample title without the excluded volume keyword. -/
def c6_title_kept : String := "6" ++ String.mk [sQuoteCh] ++ "7 110L"

/-- The sample include keyword list. -/
def c6_includes : List String := ["6" ++ String.mk [sQuoteCh] ++ "7"]

/-- The sample exclude keyword list. -/
def c6_excludes : List String := ["90L"]

/-- C6: the keyword filter accepts a title exactly when every include
keyword occurs as a case-insensitive substring and no exclude keyword does;
the 90L title is excluded and the 110L title is included under the sample
filters. -/
theorem c6_theorem :
    (∀ (s : String) (inc exc : List String),
      text_ok s inc exc = true ↔
        ((∀ k ∈ inc, strIn (lowerStr k) (lowerStr s) = true) ∧
         (∀ k ∈ exc, strIn (lowerStr k) (lowerStr s) = false))) ∧
    text_ok c6_title_listed c6_includes c6_excludes = false ∧
    text_ok c6_title_kept c6_includes c6_excludes = true := by
  refine ⟨?_, by decide, by decide⟩
  intro s inc exc
  rw [text_ok_eq]
  simp [List.all_eq_true, List.any_eq_true]

/-- Configuration of the C5 counterexample: a configured ceiling of 0. -/
def c5_cfg : SearchCfg :=
  { include_keywords := [], exclude_keywords := [],
    alert_below := some 0, alert_percent_below_msrp := none }

/-- Candidate of the C5 counterexample: known price 0, at most the
ceiling. -/
def c5_cand : Candidate := { title := "board", url := "item1", price := some 0 }

/-- C5, counterexample: with alert_below configured as 0 and a candidate of
known price 0 that passes the keyword and dedup filters, the claim says the
absolute-ceiling rule fires (price at most ceiling), but the code treats the
zero ceiling as unconfigured by Python truthiness and produces no match. -/
theorem c5_counterexample :
    c5_cfg.alert_below = some 0 ∧
    c5_cand.price = some 0 ∧
    ((0 : ℚ) ≤ (0 : ℚ)) ∧
    text_ok c5_cand.title c5_cfg.include_keywords c5_cfg.exclude_keywords = true ∧
    (([] : List String).contains c5_cand.url = false) ∧
    search_used_market c5_cfg [] none [c5_cand] = [] := by
  refine ⟨rfl, rfl, le_refl 0, rfl, rfl, ?_⟩
  simp [search_used_market, processCandidate, candidateTrigger, ceilFire, refFire,
    truthy, c5_cfg, c5_cand, text_ok]

/-- C5, amended: per candidate the rules run in the fixed order keyword
filter, dedup filter, absolute-ceiling rule, percent-below-reference rule,
first match winning; the ceiling rule fires whenever a NONZERO alert_below
ceiling is configured, the candidate has a known price, and the price is at
most the ceiling; only when the ceiling rule does not fire is the percent
rule consulted; a candidate without a known price never triggers. -/
theorem c5_theorem :
    ∀ (scfg : SearchCfg) (seen : List String) (msrp : Option ℚ) (c : Candidate),
      (text_ok c.title scfg.include_keywords scfg.exclude_keywords = false →
        processCandidate scfg seen msrp c = none) ∧
      (c.url ≠ "" → seen.contains c.url = true →
        processCandidate scfg seen msrp c = none) ∧
      (∀ b p, text_ok c.title scfg.include_keywords scfg.exclude_keywords = true →
        (c.url = "" ∨ seen.contains c.url = false) →
        scfg.alert_below = some b → b ≠ 0 → c.price = some p → p ≤ b →
        processCandidate scfg seen msrp c =
          some ⟨c.title, c.url, c.price, Reason.belowCeiling b⟩) ∧
      (∀ m a p, text_ok c.title scfg.include_keywords scfg.exclude_keywords = true →
        (c.url = "" ∨ seen.contains c.url = false) →
        ceilFire scfg.alert_below p = false →
        msrp = some m → m ≠ 0 →
        scfg.alert_percent_below_msrp = some a → a ≠ 0 →
        c.price = some p → pct_drop m p ≥ a →
        processCandidate scfg seen msrp c =
          some ⟨c.title, c.url, c.price, Reason.belowRef (pct_drop m p)⟩) ∧
      (c.price = none → processCandidate scfg seen msrp c = none) := by
  intro scfg seen msrp c
  refine ⟨?_, ?_, ?_, ?_, ?_⟩
  · intro h
    simp [processCandidate, h]
  · intro h1 h2
    have h2m : c.url ∈ seen := by simpa using h2
    simp [processCandidate, h1, h2m]
  · intro b p ht hurl hab hbne hp hle
    have hcf : ceilFire (some b) p = true := by
      simp [ceilFire, truthy, Option.getD, bne_iff_ne, hbne, hle]
    have hnd : ¬c.url = "" → c.url ∉ seen := by
      rcases hurl with h | h
      · intro hne
        exact absurd h hne
      · intro _
        simpa using h
    simp [processCandidate, ht, candidateTrigger, hp, hab, hcf, Option.getD]
    exact hnd
  · intro m a p ht hurl hcf hm hmne ha hane hp hge
    have hrf : refFire (some m) (some a) p = true := by
      simp [refFire, truthy, Option.getD, bne_iff_ne, hmne, hane, hge]
    have hnd : ¬c.url = "" → c.url ∉ seen := by
      rcases hurl with h | h
      · intro hne
        exact absurd h hne
      · intro _
        simpa using h
    simp [processCandidate, ht, candidateTrigger, hp, hm, ha, hcf, hrf, Option.getD]
    exact hnd
  · intro hp
    simp [processCandidate, candidateTrigger, hp]

/-- Configuration of the C5 witness: ceiling 2300. -/
def c5w_cfg : SearchCfg :=
  { include_keywords := [], exclude_keywords := [],
    alert_below := some 2300, alert_percent_below_msrp := none }

/-- Candidate of the C5 witness: known price 2200 under the ceiling. -/
def c5w_cand : Candidate := { title := "hydrofoil board", url := "item2", price := some 2200 }

theorem c5_witness :
    processCandidate c5w_cfg [] none c5w_cand =
      some ⟨"hydrofoil board", "item2", some 2200, Reason.belowCeiling 2300⟩ :=
  (c5_theorem c5w_cfg [] none c5w_cand).2.2.1 2300 2200 rfl (Or.inr rfl) rfl
    (by norm_num) rfl (by norm_num)

lemma mem_addSeen_self (s : List String) (u : String) : u ∈ addSeen s u := by
  unfold addSeen
  cases hc : s.contains u
  · simp
  · simpa using hc

lemma mem_addSeen_mono (s : List String) (u v : String) (h : v ∈ s) : v ∈ addSeen s u := by
  unfold addSeen
  cases hc : s.contains u <;> simp [h]

lemma mem_addSeen_cases (s : List String) (u v : String) (h : v ∈ addSeen s u) :
    v ∈ s ∨ v = u := by
  unfold addSeen at h
  cases hc : s.contains u <;> rw [hc] at h
  · simpa using h
  · exact Or.inl (by simpa using h)

lemma foldSeen_mono (ms : List MatchRec) :
    ∀ (s : List String) (v : String), v ∈ s → v ∈ foldSeen ms s := by
  induction ms with
  | nil => intro s v h; simpa [foldSeen] using h
  | cons m t ih =>
    intro s v h
    unfold foldSeen
    rw [List.foldl_cons]
    have hstep : v ∈ (if m.url != "" then addSeen s m.url else s) := by
      cases hb : (m.url != "")
      · simpa using h
      · simpa using mem_addSeen_mono s m.url v h
    exact ih _ v hstep

lemma foldSeen_mem_self (ms : List MatchRec) :
    ∀ (s : List String) (m : MatchRec), m ∈ ms → m.url ≠ "" → m.url ∈ foldSeen ms s := by
  induction ms with
  | nil => intro s m hm; exact absurd hm (List.not_mem_nil m)
  | cons m0 t ih =>
    intro s m hm hne
    unfold foldSeen
    rw [List.foldl_cons]
    rcases List.mem_cons.mp hm with h | h
    · subst h
      have hb : (m.url != "") = true := bne_iff_ne.mpr hne
      rw [hb]
      exact foldSeen_mono t _ m.url (by simpa using mem_addSeen_self s m.url)
    · exact ih _ m h hne

lemma not_mem_foldSeen_empty (ms : List MatchRec) :
    ∀ s : List String, "" ∉ s → "" ∉ foldSeen ms s := by
  induction ms with
  | nil => intro s h; simpa [foldSeen] using h
  | cons m t ih =>
    intro s h
    unfold foldSeen
    rw [List.foldl_cons]
    have hstep : "" ∉ (if m.url != "" then addSeen s m.url else s) := by
      cases hb : (m.url != "")
      · simpa using h
      · intro hmem
        rcases mem_addSeen_cases s m.url "" (by simpa using hmem) with hin | heq
        · exact h hin
        · exact (bne_iff_ne.mp hb) heq.symm
    exact ih _ hstep

lemma mem_insStr (a x : String) (l : List String) : a ∈ insStr x l ↔ a = x ∨ a ∈ l := by
  induction l with
  | nil => simp [insStr]
  | cons y t ih =>
    unfold insStr
    cases hb : strLe x y
    · rw [if_neg (by simp)]
      simp only [List.mem_cons, ih]
      tauto
    · rw [if_pos (by simp)]
      simp only [List.mem_cons]

lemma mem_sortStrings (a : String) (l : List String) : a ∈ sortStrings l ↔ a ∈ l := by
  induction l with
  | nil => simp [sortStrings]
  | cons x t ih =>
    have : sortStrings (x :: t) = insStr x (sortStrings t) := rfl
    rw [this, mem_insStr, ih, List.mem_cons]

lemma mem_takeLastStr (a : String) (n : Nat) (l : List String) (h : a ∈ takeLastStr n l) :
    a ∈ l :=
  List.drop_subset _ l h

lemma processCandidate_some (scfg : SearchCfg) (seen : List String) (msrp : Option ℚ)
    (c : Candidate) (m : MatchRec) (h : processCandidate scfg seen msrp c = some m) :
    m.url = c.url ∧ m.title = c.title ∧ m.price = c.price ∧
      (c.url ≠ "" → c.url ∉ seen) := by
  unfold processCandidate at h
  split at h
  · exact absurd h (by simp)
  · split at h
    next hcond =>
      exact absurd h (by simp)
    next hcond =>
      have hnd : c.url ≠ "" → c.url ∉ seen := by
        intro hne hmem
        exact hcond (by simp [bne_iff_ne.mpr hne, hmem])
      split at h
      next r hr =>
        cases h
        exact ⟨rfl, rfl, rfl, hnd⟩
      next hr =>
        exact absurd h (by simp)

lemma seenStep_no_empty (scfg : SearchCfg) (msrp : Option ℚ) (candidates : List Candidate)
    (seen : List String) (hno : "" ∉ seen) :
    "" ∉ (runSearchStep scfg msrp candidates seen).2 := by
  intro hmem
  have h1 : ("" : String) ∈ sortStrings
      (foldSeen (search_used_market scfg seen msrp candidates) seen) :=
    mem_takeLastStr _ _ _ (by simpa [runSearchStep] using hmem)
  exact not_mem_foldSeen_empty _ _ hno ((mem_sortStrings _ _).mp h1)

lemma iterateSeen_no_empty (scfg : SearchCfg) (msrp : Option ℚ) (candidates : List Candidate) :
    ∀ (n : Nat) (seen : List String), "" ∉ seen →
      "" ∉ iterateSeen scfg msrp candidates n seen := by
  intro n
  induction n with
  | zero => intro seen h; simpa [iterateSeen] using h
  | succ k ih =>
    intro seen h
    have hstep := seenStep_no_empty scfg msrp candidates seen h
    simpa [iterateSeen] using ih _ hstep

/-- C8: starting from a seen set that does not hold the empty string (an
invariant every run preserves, since only nonempty urls are folded in), no
match of a run carries a url already in the seen set, every alerted match
with a nonempty url is folded into the seen set before persistence, and the
persisted set again holds no empty string. -/
theorem c8_theorem :
    ∀ (scfg : SearchCfg) (msrp : Option ℚ) (candidates : List Candidate) (seen : List String),
      "" ∉ seen →
      (∀ m ∈ (runSearchStep scfg msrp candidates seen).1, m.url ∉ seen) ∧
      (∀ m ∈ (runSearchStep scfg msrp candidates seen).1, m.url ≠ "" →
        m.url ∈ foldSeen (search_used_market scfg seen msrp candidates) seen) ∧
      "" ∉ (runSearchStep scfg msrp candidates seen).2 := by
  intro scfg msrp candidates seen hno
  refine ⟨?_, ?_, seenStep_no_empty scfg msrp candidates seen hno⟩
  · intro m hm
    have hmem : m ∈ candidates.filterMap (processCandidate scfg seen msrp) := by
      simpa [runSearchStep, search_used_market] using hm
    obtain ⟨c, _, hpc⟩ := List.mem_filterMap.mp hmem
    obtain ⟨hurl, -, -, hcond⟩ := processCandidate_some _ _ _ _ _ hpc
    rw [hurl]
    by_cases hce : c.url = ""
    · rw [hce]
      exact hno
    · exact hcond hce
  · intro m hm hne
    exact foldSeen_mem_self _ seen m (by simpa [runSearchStep] using hm) hne

/-- Configuration of the C8 witness. -/
def c8w_cfg : SearchCfg :=
  { include_keywords := [], exclude_keywords := [],
    alert_below := some 100, alert_percent_below_msrp := none }

/-- Candidate of the C8 witness: its url is already in the seen set. -/
def c8w_cand : Candidate := { title := "board", url := "u1", price := some 50 }

theorem c8_witness :
    (("" : String) ∉ ["u1"]) ∧
    ((∀ m ∈ (runSearchStep c8w_cfg none [c8w_cand] ["u1"]).1, m.url ∉ ["u1"]) ∧
      (∀ m ∈ (runSearchStep c8w_cfg none [c8w_cand] ["u1"]).1, m.url ≠ "" →
        m.url ∈ foldSeen (search_used_market c8w_cfg ["u1"] none [c8w_cand]) ["u1"]) ∧
      ("" : String) ∉ (runSearchStep c8w_cfg none [c8w_cand] ["u1"]).2) :=
  ⟨by simp, c8_theorem c8w_cfg none [c8w_cand] ["u1"] (by simp)⟩

/-- C10: a candidate whose extracted url is the empty string bypasses the
dedup filter entirely: its evaluation does not depend on the seen set, it
appears among the matches of EVERY repeated run with unchanged input
(provided it passes the keyword filter and an economic rule fires), and the
empty string is never folded into the seen set. -/
theorem c10_theorem :
    ∀ (scfg : SearchCfg) (msrp : Option ℚ) (candidates : List Candidate)
      (c : Candidate) (r : Reason) (seen : List String) (n : Nat),
      c ∈ candidates → c.url = "" →
      text_ok c.title scfg.include_keywords scfg.exclude_keywords = true →
      candidateTrigger scfg.alert_below msrp scfg.alert_percent_below_msrp c.price = some r →
      (∀ s1 s2 : List String,
        processCandidate scfg s1 msrp c = processCandidate scfg s2 msrp c) ∧
      ((⟨c.title, c.url, c.price, r⟩ : MatchRec) ∈
        (runSearchStep scfg msrp candidates (iterateSeen scfg msrp candidates n seen)).1) ∧
      ("" ∉ seen → "" ∉ iterateSeen scfg msrp candidates (n + 1) seen) := by
  intro scfg msrp candidates c r seen n hc hurl htext htrig
  have hpc : ∀ s : List String,
      processCandidate scfg s msrp c = some ⟨c.title, c.url, c.price, r⟩ := by
    intro s
    simp [processCandidate, hurl, htext, htrig]
  refine ⟨?_, ?_, ?_⟩
  · intro s1 s2
    rw [hpc s1, hpc s2]
  · have : (⟨c.title, c.url, c.price, r⟩ : MatchRec) ∈
        candidates.filterMap
          (processCandidate scfg (iterateSeen scfg msrp candidates n seen) msrp) :=
      List.mem_filterMap.mpr ⟨c, hc, hpc _⟩
    simpa [runSearchStep, search_used_market] using this
  · intro hno
    exact iterateSeen_no_empty scfg msrp candidates (n + 1) seen hno

/-- Configuration of the C10 witness. -/
def c10w_cfg : SearchCfg :=
  { include_keywords := [], exclude_keywords := [],
    alert_below := some 100, alert_percent_below_msrp := none }

/-- Candidate of the C10 witness: empty url, price under the ceiling. -/
def c10w_cand : Candidate := { title := "t-board", url := "", price := some 50 }

theorem c10_witness :
    (∀ s1 s2 : List String,
      processCandidate c10w_cfg s1 none c10w_cand =
        processCandidate c10w_cfg s2 none c10w_cand) ∧
    ((⟨"t-board", "", some 50, Reason.belowCeiling 100⟩ : MatchRec) ∈
      (runSearchStep c10w_cfg none [c10w_cand] (iterateSeen c10w_cfg none [c10w_cand] 1 [])).1) ∧
    (("" : String) ∉ [] → ("" : String) ∉ iterateSeen c10w_cfg none [c10w_cand] 2 []) :=
  c10_theorem c10w_cfg none [c10w_cand] c10w_cand (Reason.belowCeiling 100) [] 1
    (by simp) rfl rfl
    (by norm_num [candidateTrigger, ceilFire, refFire, truthy, Option.getD, c10w_cfg, c10w_cand])

/-- Whitespace class of the regex scanner. -/
def isSpaceCh (c : Char) : Bool :=
  c == ' ' || c == '\t' || c == '\n' || c == '\x0d' || c == '\x0b' || c == '\x0c'

/-- The numeric-run class [0-9.,] of the inner jsonld regex. -/
def isNumCh (c : Char) : Bool := c.isDigit || c == '.' || c == ','

/-- One attempted match of the inner jsonld regex at the head of s: the
literal quoted key, optional whitespace, a colon, optional whitespace, an
optional quote, then a digit followed by a greedy run of [0-9.,], then an
optional closing quote.  Returns the captured numeric group and the rest of
the input after the match. -/
def tryMatchKey (k : List Char) (s : List Char) : Option (List Char × List Char) :=
  let pat := '"' :: (k ++ ['"'])
  if List.isPrefixOf pat s then
    let r2 := (s.drop pat.length).dropWhile isSpaceCh
    match r2 with
    | ':' :: r3 =>
      let r4 := r3.dropWhile isSpaceCh
      let r5 := match r4 with
        | '"' :: t => t
        | t => t
      match r5 with
      | [] => none
      | c :: r6 =>
        if c.isDigit then
          let run := r6.takeWhile isNumCh
          let r7 := r6.dropWhile isNumCh
          let r8 := match r7 with
            | '"' :: t => t
            | t => t
          some (c :: run, r8)
        else none
    | _ => none
  else none

/-- Scan for all non-overlapping matches of the inner jsonld regex, left to
right, as re.finditer does.  The fuel argument bounds the iteration count;
it starts at the input length, which suffices because every step consumes at
least one character. -/
def scanKeyAux (k : List Char) : Nat → List Char → List (List Char)
  | 0, _ => []
  | _, [] => []
  | Nat.succ fuel, c :: rest =>
    match tryMatchKey k (c :: rest) with
    | some (cap, r2) => cap :: scanKeyAux k fuel r2
    | none => scanKeyAux k fuel rest

/-- All captured numeric groups for one key inside one ld+json blob. -/
def scanKey (k : String) (blob : String) : List (List Char) :=
  scanKeyAux k.data blob.data.length blob.data

/-- Embedding of jsonld_prices from price_tracker.py, over the list of
ld+json block contents of the page: for each blob and each of the keys
price, lowPrice, highPrice, every captured numeric value that parses is
collected. -/
def jsonld_prices (blobs : List String) : List ℚ :=
  blobs.flatMap (fun blob =>
    (["price", "lowPrice", "highPrice"] : List String).flatMap (fun k =>
      (scanKey k blob).filterMap (fun cap => extract_price_number (String.mk cap))))

/-- Embedding of og_price from price_tracker.py: parse the content
attribute of the matched Open-Graph (or twitter) price meta tag, when the
page has one. -/
def og_price (og : Option String) : Option ℚ := og.bind extract_price_number

/-- Python min over a nonempty list, folding from the first element. -/
def qmin (a b : ℚ) : ℚ := if b < a then b else a

/-- The expression min of the positive entries if any entry is positive,
else None, from step 2 of fetch_product_price. -/
def minPos (l : List ℚ) : Option ℚ :=
  match l.filter (fun p => decide (0 < p)) with
  | [] => none
  | x :: xs => some (xs.foldl qmin x)

/-- A fetched page, at the granularity the extraction strategies consume:
the raw text (seen by the configured regex), the ld+json block contents
(found by the script-tag regex), the content attribute of the Open-Graph or
twitter price meta tag (found by the meta regex, none when absent), and the
raw string of the first node matched by the configured CSS selector
(attribute value or text content, none when the selector matches no node). -/
structure Page where
  text : String
  blobs : List String
  ogContent : Option String
  selRaw : Option String

/-- The fields of a tracked product consumed by fetch_product_price: the
optional configured extraction regex, modelled as a matcher returning the
first captured group, and whether a CSS selector is configured. -/
structure ProductCfg where
  price_regex : Option (String → Option String)
  hasSelector : Bool

/-- Strategy 3 of fetch_product_price: the CSS selector fallback. -/
def fetchSelector (p : ProductCfg) (page : Page) : Option ℚ :=
  if p.hasSelector then
    match page.selRaw with
    | some raw => extract_price_number raw
    | none => none
  else none

/-- Strategy 2 of fetch_product_price: jsonld then Open-Graph.  A nonempty
collected list RETURNS (possibly None) without consulting the Open-Graph
value; an Open-Graph value of zero is falsy and falls through to the
selector strategy. -/
def fetchStructured (p : ProductCfg) (page : Page) : Option ℚ :=
  let jl := jsonld_prices page.blobs
  if jl.isEmpty then
    match og_price page.ogContent with
    | some v => if v == 0 then fetchSelector p page else some v
    | none => fetchSelector p page
  else minPos jl

/-- Embedding of fetch_product_price from price_tracker.py: the configured
regex first (its parse result returned outright on a match), then the
structured-data strategy, then the selector strategy. -/
def fetch_product_price (p : ProductCfg) (page : Page) : Option ℚ :=
  match p.price_regex with
  | some matcher =>
    match matcher page.text with
    | some g => extract_price_number g
    | none => fetchStructured p page
  | none => fetchStructured p page

lemma qmin_le_left (x y : ℚ) : qmin x y ≤ x := by
  unfold qmin
  split
  · exact le_of_lt (by assumption)
  · exact le_refl x

lemma qmin_le_right (x y : ℚ) : qmin x y ≤ y := by
  unfold qmin
  split
  · exact le_refl y
  · exact le_of_not_lt (by assumption)

lemma qmin_cases (x y : ℚ) : qmin x y = x ∨ qmin x y = y := by
  unfold qmin
  split
  · exact Or.inr rfl
  · exact Or.inl rfl

lemma foldl_qmin_spec (xs : List ℚ) :
    ∀ x : ℚ, (xs.foldl qmin x = x ∨ xs.foldl qmin x ∈ xs) ∧
      xs.foldl qmin x ≤ x ∧ ∀ q ∈ xs, xs.foldl qmin x ≤ q := by
  induction xs with
  | nil => intro x; simp
  | cons y t ih =>
    intro x
    rw [List.foldl_cons]
    obtain ⟨hmem, hle, hall⟩ := ih (qmin x y)
    refine ⟨?_, ?_, ?_⟩
    · rcases hmem with h | h
      · rcases qmin_cases x y with hq | hq
        · exact Or.inl (h.trans hq)
        · exact Or.inr (List.mem_cons.mpr (Or.inl (h.trans hq)))
      · exact Or.inr (List.mem_cons.mpr (Or.inr h))
    · exact hle.trans (qmin_le_left x y)
    · intro q hq
      rcases List.mem_cons.mp hq with h | h
      · subst h
        exact hle.trans (qmin_le_right x q)
      · exact hall q h

lemma minPos_spec (l : List ℚ) (m : ℚ) (h : minPos l = some m) :
    m ∈ l ∧ 0 < m ∧ ∀ q ∈ l, 0 < q → m ≤ q := by
  unfold minPos at h
  cases hf : l.filter (fun p => decide (0 < p)) with
  | nil => rw [hf] at h; exact absurd h (by simp)
  | cons x xs =>
    rw [hf] at h
    have hm : m = xs.foldl qmin x := by
      have := Option.some.inj h
      exact this.symm
    obtain ⟨hmem, hle, hall⟩ := foldl_qmin_spec xs x
    have hxf : x ∈ l.filter (fun p => decide (0 < p)) := by
      rw [hf]; exact List.mem_cons_self x xs
    have hmf : m ∈ l.filter (fun p => decide (0 < p)) := by
      rw [hf, hm]
      rcases hmem with hh | hh
      · rw [hh]; exact List.mem_cons_self x xs
      · exact List.mem_cons.mpr (Or.inr hh)
    have hmem_l : m ∈ l := (List.mem_filter.mp hmf).1
    have hpos : 0 < m := by
      have := (List.mem_filter.mp hmf).2
      simpa using this
    refine ⟨hmem_l, hpos, ?_⟩
    intro q hq hqpos
    have hqf : q ∈ l.filter (fun p => decide (0 < p)) :=
      List.mem_filter.mpr ⟨hq, by simpa using hqpos⟩
    rw [hf] at hqf
    rcases List.mem_cons.mp hqf with h1 | h1
    · subst h1
      rw [hm]; exact hle
    · rw [hm]; exact hall q h1

lemma minPos_none (l : List ℚ) (h : ∀ q ∈ l, ¬0 < q) : minPos l = none := by
  unfold minPos
  have hf : l.filter (fun p => decide (0 < p)) = [] := by
    rw [List.filter_eq_nil_iff]
    intro a ha
    simpa using h a ha
  rw [hf]

lemma fetch_noregex (p : ProductCfg) (page : Page) (h : p.price_regex = none) :
    fetch_product_price p page = fetchStructured p page := by
  simp [fetch_product_price, h]

/-- The ld+json blob of the C1 counterexample: a price of zero. -/
def c1cex_blob : String := "\x7b\"price\": 0\x7d"

/-- The page of the C1 counterexample: one blob with price 0, an Open-Graph
price tag of 42, no selector node. -/
def c1cex_page : Page :=
  { text := "", blobs := [c1cex_blob], ogContent := some "42", selRaw := none }

/-- The product of the C1 counterexample: no configured regex or selector. -/
def c1cex_prod : ProductCfg := { price_regex := none, hasSelector := false }

lemma tokenVal_zero : tokenVal ['0'] [] = (0 : ℚ) := by
  rw [tokenVal_eval ['0'] [] 0 0 0 rfl rfl rfl]
  norm_num

/-- C1, counterexample: the page holds one structured block whose only
collected value is 0, so no collected value is strictly positive, and the
page holds an Open-Graph price of 42; the claim says extraction falls back
to the Open-Graph value, but the code returns from the nonempty structured
list with None, never consulting the Open-Graph tag. -/
theorem c1_counterexample :
    jsonld_prices c1cex_page.blobs = [(0 : ℚ)] ∧
    (∀ q ∈ jsonld_prices c1cex_page.blobs, ¬(0 : ℚ) < q) ∧
    og_price c1cex_page.ogContent = some (42 : ℚ) ∧
    fetch_product_price c1cex_prod c1cex_page = none ∧
    fetch_product_price c1cex_prod c1cex_page ≠ og_price c1cex_page.ogContent := by
  have hjl : jsonld_prices c1cex_page.blobs = [(0 : ℚ)] := by
    have hsym : jsonld_prices c1cex_page.blobs = [tokenVal ['0'] []] := rfl
    rw [hsym, tokenVal_zero]
  have hog : og_price c1cex_page.ogContent = some (42 : ℚ) := by
    have hsym : og_price c1cex_page.ogContent = some (tokenVal ['4', '2'] []) := rfl
    rw [hsym, tokenVal_eval ['4', '2'] [] 42 0 0 rfl rfl rfl]
    norm_num
  have hfetch : fetch_product_price c1cex_prod c1cex_page = none := by
    rw [fetch_noregex c1cex_prod c1cex_page rfl]
    unfold fetchStructured
    rw [hjl]
    simp only [List.isEmpty_cons, Bool.false_eq_true, if_false]
    exact minPos_none [(0 : ℚ)] (by norm_num)
  refine ⟨hjl, ?_, hog, hfetch, ?_⟩
  · rw [hjl]
    norm_num
  · rw [hfetch, hog]
    simp

/-- C1, amended: for a product without a configured regex, the
structured-data strategy collects all numeric values under the keys price,
lowPrice and highPrice from the ld+json blocks; if any collected value is
strictly positive the minimum strictly-positive value is returned; if
values were collected but none is strictly positive, extraction returns
none WITHOUT consulting the Open-Graph tag; only when no value at all was
collected does it fall back to the Open-Graph value, and then only when
that value is present and nonzero, else to the selector strategy. -/
theorem c1_theorem :
    ∀ (p : ProductCfg) (page : Page), p.price_regex = none →
      (((jsonld_prices page.blobs).filter (fun q => decide (0 < q)) ≠ []) →
        ∃ m, fetch_product_price p page = some m ∧ m ∈ jsonld_prices page.blobs ∧
          0 < m ∧ ∀ q ∈ jsonld_prices page.blobs, 0 < q → m ≤ q) ∧
      (jsonld_prices page.blobs ≠ [] → (∀ q ∈ jsonld_prices page.blobs, ¬0 < q) →
        fetch_product_price p page = none) ∧
      (jsonld_prices page.blobs = [] → ∀ v, og_price page.ogContent = some v → v ≠ 0 →
        fetch_product_price p page = some v) ∧
      (jsonld_prices page.blobs = [] →
        (og_price page.ogContent = none ∨ og_price page.ogContent = some 0) →
        fetch_product_price p page = fetchSelector p page) := by
  intro p page hreg
  rw [fetch_noregex p page hreg]
  refine ⟨?_, ?_, ?_, ?_⟩
  · intro hfil
    have hjl : jsonld_prices page.blobs ≠ [] := by
      intro h
      rw [h] at hfil
      exact hfil rfl
    have hs : fetchStructured p page = minPos (jsonld_prices page.blobs) := by
      unfold fetchStructured
      rw [if_neg (by simpa [List.isEmpty_iff] using hjl)]
    cases hmp : minPos (jsonld_prices page.blobs) with
    | none =>
      exfalso
      unfold minPos at hmp
      cases hf : (jsonld_prices page.blobs).filter (fun p => decide (0 < p)) with
      | nil => exact hfil hf
      | cons x xs => rw [hf] at hmp; exact absurd hmp (by simp)
    | some m =>
      obtain ⟨h1, h2, h3⟩ := minPos_spec _ m hmp
      exact ⟨m, by rw [hs, hmp], h1, h2, h3⟩
  · intro hjl hnp
    have hs : fetchStructured p page = minPos (jsonld_prices page.blobs) := by
      unfold fetchStructured
      rw [if_neg (by simpa [List.isEmpty_iff] using hjl)]
    rw [hs]
    exact minPos_none _ hnp
  · intro hjl v hog hne
    unfold fetchStructured
    rw [if_pos (by simpa [List.isEmpty_iff] using hjl), hog]
    simp [bne_iff_ne, hne]
  · intro hjl hog
    unfold fetchStructured
    rw [if_pos (by simpa [List.isEmpty_iff] using hjl)]
    rcases hog with h | h
    · rw [h]
    · rw [h]
      simp

/-- The ld+json blob of the C1 witness: a lowPrice of 30 and a price of 50. -/
def c1w_blob : String := "\x7b\"lowPrice\": \"30\", \"price\": \"50\"\x7d"

/-- The page of the C1 witness. -/
def c1w_page : Page :=
  { text := "", blobs := [c1w_blob], ogContent := none, selRaw := none }

/-- The product of the C1 witness. -/
def c1w_prod : ProductCfg := { price_regex := none, hasSelector := false }

lemma c1w_jl : jsonld_prices c1w_page.blobs = [(50 : ℚ), (30 : ℚ)] := by
  have hsym : jsonld_prices c1w_page.blobs =
      [tokenVal ['5', '0'] [], tokenVal ['3', '0'] []] := rfl
  rw [hsym, tokenVal_eval ['5', '0'] [] 50 0 0 rfl rfl rfl,
    tokenVal_eval ['3', '0'] [] 30 0 0 rfl rfl rfl]
  norm_num

theorem c1_witness :
    ((jsonld_prices c1w_page.blobs).filter (fun q => decide (0 < q)) ≠ []) ∧
    (∃ m, fetch_product_price c1w_prod c1w_page = some m ∧
      m ∈ jsonld_prices c1w_page.blobs ∧ 0 < m ∧
      ∀ q ∈ jsonld_prices c1w_page.blobs, 0 < q → m ≤ q) := by
  have hfil : (jsonld_prices c1w_page.blobs).filter (fun q => decide (0 < q)) ≠ [] := by
    rw [c1w_jl]
    norm_num
    simp
  exact ⟨hfil, (c1_theorem c1w_prod c1w_page rfl).1 hfil⟩

/-- C4: for a product with a configured extraction pattern, a successful
pattern match returns the parse of the captured group directly, skipping
the structured-data, Open-Graph and selector strategies no matter what the
page holds; only on a pattern miss does extraction fall through to the
structured-data strategy. -/
theorem c4_theorem :
    ∀ (p : ProductCfg) (page : Page) (matcher : String → Option String),
      p.price_regex = some matcher →
      (∀ g, matcher page.text = some g →
        fetch_product_price p page = extract_price_number g) ∧
      (matcher page.text = none →
        fetch_product_price p page = fetchStructured p page) := by
  intro p page matcher h
  constructor
  · intro g hg
    simp [fetch_product_price, h, hg]
  · intro hg
    simp [fetch_product_price, h, hg]

/-- The matcher of the C4 witness: the configured pattern captures the
group 149.99 on this page. -/
def c4w_matcher : String → Option String := fun _ => some "149.99"

/-- The product of the C4 witness. -/
def c4w_prod : ProductCfg := { price_regex := some c4w_matcher, hasSelector := false }

/-- The page of the C4 witness: it also holds conflicting structured data
(prices 50 and 30). -/
def c4w_page : Page :=
  { text := "page text", blobs := [c1w_blob], ogContent := none, selRaw := none }

theorem c4_witness :
    fetch_product_price c4w_prod c4w_page = extract_price_number "149.99" ∧
    extract_price_number "149.99" = some (14999 / 100 : ℚ) ∧
    jsonld_prices c4w_page.blobs = [(50 : ℚ), (30 : ℚ)] ∧
    minPos (jsonld_prices c4w_page.blobs) = some (30 : ℚ) := by
  have hjl : jsonld_prices c4w_page.blobs = [(50 : ℚ), (30 : ℚ)] := by
    have hsym : jsonld_prices c4w_page.blobs =
        [tokenVal ['5', '0'] [], tokenVal ['3', '0'] []] := rfl
    rw [hsym, tokenVal_eval ['5', '0'] [] 50 0 0 rfl rfl rfl,
      tokenVal_eval ['3', '0'] [] 30 0 0 rfl rfl rfl]
    norm_num
  refine ⟨(c4_theorem c4w_prod c4w_page c4w_matcher rfl).1 "149.99" rfl, ?_, hjl, ?_⟩
  · have hsym : extract_price_number "149.99" =
        some (tokenVal ['1', '4', '9'] ['9', '9']) := rfl
    rw [hsym, tokenVal_eval ['1', '4', '9'] ['9', '9'] 149 99 2 rfl rfl rfl]
    norm_num
  · rw [hjl]
    unfold minPos
    norm_num [List.filter, qmin]

lemma tokenVal_nonneg (ip fp : List Char) : 0 ≤ tokenVal ip fp := by
  unfold tokenVal
  positivity

lemma extract_nonneg (t : String) (q : ℚ) (h : extract_price_number t = some q) : 0 ≤ q := by
  simp only [extract_price_number] at h
  split at h
  · exact absurd h (by simp)
  · split at h
    · exact absurd h (by simp)
    · split at h
      · exact absurd h (by simp)
      next ip fp heq =>
        obtain rfl : tokenVal ip fp = q := Option.some.inj h
        exact tokenVal_nonneg ip fp

lemma jsonld_nonneg (blobs : List String) : ∀ q ∈ jsonld_prices blobs, 0 ≤ q := by
  intro q hq
  unfold jsonld_prices at hq
  obtain ⟨blob, _, hq2⟩ := List.mem_flatMap.mp hq
  obtain ⟨k, _, hq3⟩ := List.mem_flatMap.mp hq2
  obtain ⟨cap, _, hq4⟩ := List.mem_filterMap.mp hq3
  exact extract_nonneg _ _ hq4

lemma fetchSelector_nonneg (p : ProductCfg) (page : Page) (q : ℚ)
    (h : fetchSelector p page = some q) : 0 ≤ q := by
  unfold fetchSelector at h
  split at h
  · split at h
    next raw heq => exact extract_nonneg raw q h
    next heq => exact absurd h (by simp)
  · exact absurd h (by simp)

lemma fetchStructured_nonneg (p : ProductCfg) (page : Page) (q : ℚ)
    (h : fetchStructured p page = some q) : 0 ≤ q := by
  simp only [fetchStructured] at h
  by_cases hje : (jsonld_prices page.blobs).isEmpty = true
  · rw [if_pos hje] at h
    revert h
    cases hog : og_price page.ogContent with
    | none =>
      intro h
      exact fetchSelector_nonneg p page q h
    | some v =>
      intro h
      replace h : (if (v == 0) = true then fetchSelector p page else some v) = some q := h
      by_cases hz : (v == 0) = true
      · rw [if_pos hz] at h
        exact fetchSelector_nonneg p page q h
      · rw [if_neg hz] at h
        obtain rfl : v = q := Option.some.inj h
        obtain ⟨s, _, hex⟩ := Option.bind_eq_some.mp hog
        exact extract_nonneg s _ hex
  · rw [if_neg hje] at h
    exact le_of_lt (minPos_spec _ q h).2.1

lemma fetch_nonneg (p : ProductCfg) (page : Page) (q : ℚ)
    (h : fetch_product_price p page = some q) : 0 ≤ q := by
  unfold fetch_product_price at h
  split at h
  next matcher hm =>
    split at h
    next g hg => exact extract_nonneg g q h
    next hg => exact fetchStructured_nonneg p page q h
  next hm => exact fetchStructured_nonneg p page q h

/-- Ledger entry per tracked product, as written by the retailer loop of
main: baseline, capped history of (timestamp, price) samples, last observed
price, denormalized url and display name. -/
structure ProdState where
  baseline : Option ℚ
  history : List (Nat × ℚ)
  last_price : Option ℚ
  url : Option String
  name : Option String
deriving DecidableEq

/-- The empty ledger entry installed by setdefault. -/
def emptyProdState : ProdState :=
  { baseline := none, history := [], last_price := none, url := none, name := none }

/-- The last n history samples, modelling the slice from -300. -/
def takeLastH (n : Nat) (l : List (Nat × ℚ)) : List (Nat × ℚ) := l.drop (l.length - n)

/-- A tracked product of the configuration: identity, url, display name,
extraction hints, and the optional fixed baseline override. -/
structure TrackedProduct where
  id : String
  url : String
  name : String
  extraction : ProductCfg
  baseline : Option ℚ

/-- The ledger update of one successful retailer observation, from main:
the stored baseline is replaced by the config override when one is
supplied, kept otherwise, and seeded with the observed price when still
missing; a history sample is appended under the 300-entry cap; last price,
url and name are refreshed.  The alert decision reads this state but never
writes it. -/
def productStep (prod : TrackedProduct) (st : ProdState) (now : Nat) (price : ℚ) :
    ProdState :=
  let b1 := match prod.baseline with
    | some b => some b
    | none => st.baseline
  let b2 := match b1 with
    | none => price
    | some b => b
  { baseline := some b2,
    history := takeLastH 300 (st.history ++ [(now, price)]),
    last_price := some price,
    url := some prod.url,
    name := some prod.name }

/-- One run for one product: a fetch failure or an unparsable page leaves
the ledger entry unchanged (the loop logs and continues); a parsed price
applies the ledger update. -/
def productRun (prod : TrackedProduct) (st : ProdState) (now : Nat) :
    Except Unit Page → ProdState
  | Except.error _ => st
  | Except.ok page =>
    match fetch_product_price prod.extraction page with
    | none => st
    | some price => productStep prod st now price

/-- A sequence of runs for one product, each with a timestamp and a fetch
outcome. -/
def productRuns (prod : TrackedProduct) : List (Nat × Except Unit Page) → ProdState → ProdState
  | [], st => st
  | (t, o) :: rest, st => productRuns prod rest (productRun prod st t o)

lemma productRun_baseline_pres (prod : TrackedProduct) (st : ProdState) (now : Nat)
    (o : Except Unit Page) (hc : prod.baseline = none) (b : ℚ) (hb : st.baseline = some b) :
    (productRun prod st now o).baseline = some b := by
  cases o with
  | error e => simpa [productRun] using hb
  | ok page =>
    simp only [productRun]
    cases hf : fetch_product_price prod.extraction page with
    | none => simpa using hb
    | some price => simp [productStep, hc, hb]

lemma productRun_baseline_nonneg (prod : TrackedProduct) (st : ProdState) (now : Nat)
    (o : Except Unit Page) (hc : ∀ x, prod.baseline = some x → 0 ≤ x)
    (hs : ∀ b, st.baseline = some b → 0 ≤ b) :
    ∀ b, (productRun prod st now o).baseline = some b → 0 ≤ b := by
  intro b hb
  cases o with
  | error e => exact hs b (by simpa [productRun] using hb)
  | ok page =>
    simp only [productRun] at hb
    revert hb
    cases hf : fetch_product_price prod.extraction page with
    | none =>
      intro hb
      exact hs b hb
    | some price =>
      have hprice : 0 ≤ price := fetch_nonneg prod.extraction page price hf
      simp only [productStep]
      cases hcb : prod.baseline with
      | some x =>
        intro hb
        have hxb : x = b := by simpa using hb
        rw [← hxb]
        exact hc x hcb
      | none =>
        cases hsb : st.baseline with
        | some y =>
          intro hb
          have hyb : y = b := by simpa using hb
          rw [← hyb]
          exact hs y hsb
        | none =>
          intro hb
          have hpb : price = b := by simpa using hb
          rw [← hpb]
          exact hprice

/-- The product of the C7 counterexample: a configured baseline override of
-5. -/
def c7cex_prod : TrackedProduct :=
  { id := "p1", url := "u1p", name := "n1p",
    extraction := { price_regex := none, hasSelector := false },
    baseline := some (-5) }

/-- The page of the C7 counterexample: a structured price of 100. -/
def c7cex_page : Page :=
  { text := "", blobs := ["\x7b\"price\": \"100\"\x7d"], ogContent := none, selRaw := none }

lemma c7cex_fetch : fetch_product_price c7cex_prod.extraction c7cex_page = some (100 : ℚ) := by
  rw [fetch_noregex _ _ rfl]
  have hjl : jsonld_prices c7cex_page.blobs = [(100 : ℚ)] := by
    have hsym : jsonld_prices c7cex_page.blobs = [tokenVal ['1', '0', '0'] []] := rfl
    rw [hsym, tokenVal_eval ['1', '0', '0'] [] 100 0 0 rfl rfl rfl]
    norm_num
  unfold fetchStructured
  rw [hjl]
  simp only [List.isEmpty_cons, Bool.false_eq_true, if_false]
  unfold minPos
  norm_num

/-- C7, counterexample: the claim says the stored baseline is never
negative, but a configured baseline override of -5 is written to the ledger
unchecked on a successful run, so the stored value is -5, which is
negative. -/
theorem c7_counterexample :
    (productRuns c7cex_prod [(0, Except.ok c7cex_page)] emptyProdState).baseline =
      some (-5 : ℚ) ∧
    ((-5 : ℚ) < 0) := by
  constructor
  · show (productRun c7cex_prod emptyProdState 0 (Except.ok c7cex_page)).baseline =
      some (-5 : ℚ)
    simp only [productRun]
    rw [c7cex_fetch]
    simp [productStep, c7cex_prod]
  · norm_num

/-- C7, amended: across every sequence of runs, the stored baseline, once
initialized, is preserved unchanged by every subsequent run (alerting runs
included, since the alert decision never writes the ledger) whenever no
fixed baseline override is configured; and the stored baseline is never
negative provided any configured override is non-negative — absent an
override it is seeded from a fetched price, and every price the extractor
produces is non-negative. -/
theorem c7_theorem :
    ∀ (prod : TrackedProduct) (runs : List (Nat × Except Unit Page)) (st : ProdState),
      (prod.baseline = none → ∀ b, st.baseline = some b →
        (productRuns prod runs st).baseline = some b) ∧
      ((∀ x, prod.baseline = some x → 0 ≤ x) →
        (∀ b, st.baseline = some b → 0 ≤ b) →
        ∀ b, (productRuns prod runs st).baseline = some b → 0 ≤ b) := by
  intro prod runs
  induction runs with
  | nil =>
    intro st
    constructor
    · intro _ b hb
      simpa [productRuns] using hb
    · intro _ hs b hb
      exact hs b (by simpa [productRuns] using hb)
  | cons hd rest ih =>
    intro st
    obtain ⟨t, o⟩ := hd
    constructor
    · intro hc b hb
      have hstep := productRun_baseline_pres prod st t o hc b hb
      have := (ih (productRun prod st t o)).1 hc b hstep
      simpa [productRuns] using this
    · intro hc hs b hb
      have hstep := productRun_baseline_nonneg prod st t o hc hs
      have := (ih (productRun prod st t o)).2 hc hstep b
      exact this (by simpa [productRuns] using hb)

/-- The product of the C7 witness: no configured override. -/
def c7w_prod : TrackedProduct :=
  { id := "p2", url := "u2p", name := "n2p",
    extraction := { price_regex := none, hasSelector := false },
    baseline := none }

/-- The page of the C7 witness: an observation of 440 — a 12 percent drop
from the stored baseline 500, so the alert fires on this run. -/
def c7w_page : Page :=
  { text := "", blobs := ["\x7b\"price\": \"440\"\x7d"], ogContent := none, selRaw := none }

/-- The initial ledger entry of the C7 witness: baseline already
initialized at 500. -/
def c7w_st : ProdState :=
  { baseline := some 500, history := [], last_price := some 500, url := none, name := none }

theorem c7_witness :
    (productRuns c7w_prod [(1, Except.ok c7w_page)] c7w_st).baseline = some (500 : ℚ) :=
  (c7_theorem c7w_prod [(1, Except.ok c7w_page)] c7w_st).1 rfl 500 rfl

/-- The products section of the ledger: insertion-ordered mapping from
product id to its entry, as a Python dict. -/
abbrev ProductsMap := List (String × ProdState)

/-- setdefault of the products dict: install an empty entry for a missing
id (at the end, as dict insertion order does). -/
def ensureProd (m : ProductsMap) (pid : String) : ProductsMap :=
  if (m.lookup pid).isSome then m else m ++ [(pid, emptyProdState)]

/-- Update the entry of an id in place. -/
def setProd : ProductsMap → String → ProdState → ProductsMap
  | [], pid, st => [(pid, st)]
  | (k, v) :: rest, pid, st =>
    if k = pid then (k, st) :: rest else (k, v) :: setProd rest pid st

/-- One iteration of the retailer loop of main for one product: the entry
is setdefault-ed, then a fetch error (caught and logged) or an unparsable
price leaves it at that; a parsed price applies the ledger update.  The
page fetch is an oracle keyed by product id. -/
def prodRunOne (fetchPage : String → Except Unit Page) (now : Nat)
    (m : ProductsMap) (prod : TrackedProduct) : ProductsMap :=
  let m1 := ensureProd m prod.id
  match fetchPage prod.id with
  | Except.error _ => m1
  | Except.ok page =>
    match fetch_product_price prod.extraction page with
    | none => m1
    | some price =>
      setProd m1 prod.id (productStep prod ((m1.lookup prod.id).getD emptyProdState) now price)

/-- The retailer loop of main.  The notification oracle is passed through
but never consulted for the ledger state: send_email runs inside its own
try/except and its outcome cannot reach the state. -/
def runProducts (fetchPage : String → Except Unit Page) (notifyOk : String → Bool)
    (now : Nat) : List TrackedProduct → ProductsMap → ProductsMap
  | [], m => m
  | prod :: rest, m =>
    runProducts fetchPage notifyOk now rest (prodRunOne fetchPage now m prod)

/-- The searches section of the ledger: mapping from search id to its
persisted seen list. -/
abbrev SearchesMap := List (String × List String)

/-- setdefault of the searches dict. -/
def ensureSearch (m : SearchesMap) (sid : String) : SearchesMap :=
  if (m.lookup sid).isSome then m else m ++ [(sid, [])]

/-- Update the seen list of an id in place. -/
def setSearch : SearchesMap → String → List String → SearchesMap
  | [], sid, v => [(sid, v)]
  | (k, w) :: rest, sid, v =>
    if k = sid then (k, v) :: rest else (k, w) :: setSearch rest sid v

/-- A tracked search of the configuration: identity plus the rule fields. -/
structure TrackedSearch where
  id : String
  cfg : SearchCfg

/-- One iteration of the used-search loop of main: the entry is
setdefault-ed and the stored seen list read as a set; a failed fetch or
parse of the search page (caught and logged) leaves the entry at that; on
success the run step computes the matches and the persisted seen list. -/
def searchRunOne (fetchCands : String → Except Unit (List Candidate)) (msrp : Option ℚ)
    (m : SearchesMap) (sc : TrackedSearch) : SearchesMap :=
  let m1 := ensureSearch m sc.id
  match fetchCands sc.id with
  | Except.error _ => m1
  | Except.ok cands =>
    setSearch m1 sc.id
      (runSearchStep sc.cfg msrp cands (((m1.lookup sc.id).getD []).dedup)).2

/-- The used-search loop of main. -/
def runSearches (fetchCands : String → Except Unit (List Candidate)) (msrp : Option ℚ) :
    List TrackedSearch → SearchesMap → SearchesMap
  | [], m => m
  | sc :: rest, m => runSearches fetchCands msrp rest (searchRunOne fetchCands msrp m sc)

lemma runProducts_append (fetchPage : String → Except Unit Page) (notifyOk : String → Bool)
    (now : Nat) (a b : List TrackedProduct) :
    ∀ m : ProductsMap, runProducts fetchPage notifyOk now (a ++ b) m =
      runProducts fetchPage notifyOk now b (runProducts fetchPage notifyOk now a m) := by
  induction a with
  | nil => intro m; rfl
  | cons p rest ih =>
    intro m
    simp only [List.cons_append, runProducts]
    exact ih (prodRunOne fetchPage now m p)

lemma runSearches_append (fetchCands : String → Except Unit (List Candidate))
    (msrp : Option ℚ) (a b : List TrackedSearch) :
    ∀ m : SearchesMap, runSearches fetchCands msrp (a ++ b) m =
      runSearches fetchCands msrp b (runSearches fetchCands msrp a m) := by
  induction a with
  | nil => intro m; rfl
  | cons s rest ih =>
    intro m
    simp only [List.cons_append, runSearches]
    exact ih (searchRunOne fetchCands msrp m s)

lemma runProducts_notify (fetchPage : String → Except Unit Page)
    (n1 n2 : String → Bool) (now : Nat) (cfgs : List TrackedProduct) :
    ∀ m : ProductsMap, runProducts fetchPage n1 now cfgs m =
      runProducts fetchPage n2 now cfgs m := by
  induction cfgs with
  | nil => intro m; rfl
  | cons p rest ih =>
    intro m
    simp only [runProducts]
    exact ih (prodRunOne fetchPage now m p)

lemma prodRunOne_failed (fetchPage : String → Except Unit Page) (now : Nat)
    (m : ProductsMap) (prod : TrackedProduct)
    (h : fetchPage prod.id = Except.error () ∨
      (∃ page, fetchPage prod.id = Except.ok page ∧
        fetch_product_price prod.extraction page = none)) :
    prodRunOne fetchPage now m prod = ensureProd m prod.id := by
  rcases h with h | ⟨page, hpage, hnone⟩
  · simp [prodRunOne, h]
  · simp [prodRunOne, hpage, hnone]

lemma searchRunOne_failed (fetchCands : String → Except Unit (List Candidate))
    (msrp : Option ℚ) (m : SearchesMap) (sc : TrackedSearch)
    (h : fetchCands sc.id = Except.error ()) :
    searchRunOne fetchCands msrp m sc = ensureSearch m sc.id := by
  simp [searchRunOne, h]

/-- C9: a per-entity failure is absorbed at that entity and the loops
continue.  A product whose fetch raises or whose page yields no parsable
price contributes only its setdefault entry, and the remaining products are
processed as if it had done nothing else; the ledger state is independent
of notification outcomes (send_email runs inside its own try/except); a
search whose fetch raises likewise contributes only its setdefault entry.
The run is a total function, so it always completes and returns (persists)
the state computed for the other entities. -/
theorem c9_theorem :
    ∀ (fetchPage : String → Except Unit Page) (notifyOk : String → Bool) (now : Nat)
      (l1 l2 : List TrackedProduct) (prod : TrackedProduct) (m : ProductsMap)
      (fetchCands : String → Except Unit (List Candidate)) (msrp : Option ℚ)
      (s1 s2 : List TrackedSearch) (sc : TrackedSearch) (sm : SearchesMap),
      ((fetchPage prod.id = Except.error () ∨
        (∃ page, fetchPage prod.id = Except.ok page ∧
          fetch_product_price prod.extraction page = none)) →
        runProducts fetchPage notifyOk now (l1 ++ prod :: l2) m =
          runProducts fetchPage notifyOk now l2
            (ensureProd (runProducts fetchPage notifyOk now l1 m) prod.id)) ∧
      (∀ n2 : String → Bool,
        runProducts fetchPage notifyOk now (l1 ++ prod :: l2) m =
          runProducts fetchPage n2 now (l1 ++ prod :: l2) m) ∧
      (fetchCands sc.id = Except.error () →
        runSearches fetchCands msrp (s1 ++ sc :: s2) sm =
          runSearches fetchCands msrp s2
            (ensureSearch (runSearches fetchCands msrp s1 sm) sc.id)) := by
  intro fetchPage notifyOk now l1 l2 prod m fetchCands msrp s1 s2 sc sm
  refine ⟨?_, ?_, ?_⟩
  · intro h
    rw [runProducts_append]
    simp only [runProducts]
    rw [prodRunOne_failed fetchPage now _ prod h]
  · intro n2
    exact runProducts_notify fetchPage notifyOk n2 now _ m
  · intro h
    rw [runSearches_append]
    simp only [runSearches]
    rw [searchRunOne_failed fetchCands msrp _ sc h]

/-- The failing product of the C9 witness. -/
def c9w_prodA : TrackedProduct :=
  { id := "pa", url := "ua", name := "na",
    extraction := { price_regex := none, hasSelector := false }, baseline := none }

/-- The succeeding product of the C9 witness. -/
def c9w_prodB : TrackedProduct :=
  { id := "pb", url := "ub", name := "nb",
    extraction := { price_regex := none, hasSelector := false }, baseline := none }

/-- The page oracle of the C9 witness: the fetch of pa raises, pb gets a
page with a structured price. -/
def c9w_fetch : String → Except Unit Page := fun pid =>
  if pid = "pa" then Except.error ()
  else Except.ok { text := "", blobs := ["\x7b\"price\": \"250\"\x7d"],
                   ogContent := none, selRaw := none }

theorem c9_witness :
    (c9w_fetch c9w_prodA.id = Except.error () ∨
      (∃ page, c9w_fetch c9w_prodA.id = Except.ok page ∧
        fetch_product_price c9w_prodA.extraction page = none)) ∧
    runProducts c9w_fetch (fun _ => true) 0 ([] ++ c9w_prodA :: [c9w_prodB]) [] =
      runProducts c9w_fetch (fun _ => true) 0 [c9w_prodB]
        (ensureProd (runProducts c9w_fetch (fun _ => true) 0 [] []) c9w_prodA.id) :=
  ⟨Or.inl rfl,
    (c9_theorem c9w_fetch (fun _ => true) 0 [] [c9w_prodB] c9w_prodA []
      (fun _ => Except.error ()) none [] [] ⟨"s", ⟨[], [], none, none⟩⟩ []).1 (Or.inl rfl)⟩
